import Mathlib

/-!
Verification of the `create-v1` setup engine (`src/index.ts`).

The development shallowly embeds the resolution-and-persistence core of the
CLI: JavaScript truthiness of optional strings, the regex-based placeholder
substitution used for `info` strings and `template` default values, the
dotenv-style env-file read/modify/write adapter, the existing-value lookup
across consumer projects, the per-variable acceptance policy, the optional
step gate, and the config load check.

Modelling conventions, noted next to each definition where they apply:
external effects (the file system, `execSync` of import commands, operator
answers) are passed as explicit oracles; `path.join` is modelled as
concatenation with a slash and `path.relative` as the identity, since no
claim inspects path normalisation; `dotenv.parse` is modelled on plain
`KEY=VALUE` lines (no quoting, comments or trimming), which is the fragment
the repository's own writer emits.
-/

namespace CreateV1

/-- JavaScript truthiness of a `string | undefined` value: `undefined` and
the empty string are falsy, every other string is truthy. -/
def jsTruthy : Option String → Bool
  | some s => s != ""
  | none => false

/-- The JavaScript expression `o || d` for `o : string | undefined` and a
string default `d`: the default is taken when `o` is `undefined` or empty. -/
def jsOr : Option String → String → String
  | some s, d => if s = "" then d else s
  | none, d => d

/-- The JavaScript expression `a || b` where both operands are
`string | undefined`. -/
def jsOrOpt (a b : Option String) : Option String :=
  if jsTruthy a then a else b

/-- A word character in the sense of the regex class `\w`:
ASCII letters, digits and underscore. -/
def isWordChar (c : Char) : Bool :=
  c.isAlphanum || c == '_'

/-- Attempt to match the regex `\x7b\x7b(\w+)\x7d\x7d` at the head of the
character list; on success return the captured key and the characters after
the match.  Backtracking never helps this pattern because `\w` excludes the
closing brace, so the maximal word run is the only candidate capture. -/
def matchPlaceholder (l : List Char) : Option (String × List Char) :=
  match l with
  | c1 :: c2 :: rest =>
    if c1 = '{' ∧ c2 = '{' then
      let w := rest.takeWhile isWordChar
      let r := rest.dropWhile isWordChar
      if w ≠ [] ∧ r.take 2 = ['}', '}'] then some (String.mk w, r.drop 2)
      else none
    else none
  | _ => none

/-- Fuel-indexed global replace of `\x7b\x7b(\w+)\x7d\x7d` matches, the scan
`s.replace(/.../g, (_, key) => f key)` performs: at each position either a
match is consumed and `f` applied to its capture, or one character is copied
verbatim.  The fuel only serves structural recursion; it is never exhausted
when it starts at the length of the list. -/
def replaceCharsFuel (f : String → String) : Nat → List Char → List Char
  | 0, l => l
  | _ + 1, [] => []
  | fuel + 1, c :: rest =>
    match matchPlaceholder (c :: rest) with
    | some (w, r) => (f w).data ++ replaceCharsFuel f fuel r
    | none => c :: replaceCharsFuel f fuel rest

/-- Global regex replace over a character list, with adequate fuel. -/
def replaceChars (f : String → String) (l : List Char) : List Char :=
  replaceCharsFuel f l.length l

/-- `s.replace(/\x7b\x7b(\w+)\x7d\x7d/g, (_, key) => f key)` as a string
function. -/
def replacePlaceholders (f : String → String) (s : String) : String :=
  String.mk (replaceChars f s.data)

/-- The `Values` context: the two computed Convex service endpoint URLs
(`interface Values` in the source). -/
structure Values where
  convexUrl : String
  convexSiteUrl : String
  deriving DecidableEq

/-- The indexing `values[key as keyof Values]`: a key names one of the two
fields or misses (yielding `undefined`). -/
def valuesLookup (values : Values) (key : String) : Option String :=
  if key = "convexUrl" then some values.convexUrl
  else if key = "convexSiteUrl" then some values.convexSiteUrl
  else none

/-- The substitution callback of the `info` rendering path:
`values[key] || `[${key} not set]``. -/
def infoSub (values : Values) (key : String) : String :=
  jsOr (valuesLookup values key) ("[" ++ key ++ " not set]")

/-- The substitution callback of the `template` default-value rendering
path: `values[key] || ""`. -/
def tplSub (values : Values) (key : String) : String :=
  jsOr (valuesLookup values key) ""

/-- Rendering of one `info` string (`setupEnvironment`, the `processedInfo`
computation). -/
def processInfo (values : Values) (s : String) : String :=
  replacePlaceholders (infoSub values) s

/-- Rendering of a variable's `template` default value (`setupEnvironment`,
the `defaultValue` computation). -/
def renderTemplate (values : Values) (s : String) : String :=
  replacePlaceholders (tplSub values) s

/-- An env-file key/value mapping in insertion order, as produced by
`dotenv.parse` into a JavaScript object and consumed by `Object.entries`. -/
abbrev EnvMap := List (List Char × List Char)

/-- Upsert into an insertion-ordered mapping: an existing key keeps its
position and gets the new value, a new key is appended (JavaScript object
assignment `envConfig[key] = value`). -/
def envSet : EnvMap → List Char → List Char → EnvMap
  | [], k, v => [(k, v)]
  | (k', v') :: rest, k, v =>
    if k' = k then (k', v) :: rest else (k', v') :: envSet rest k v

/-- Lookup in the mapping (`envConfig[key]`, `undefined` when absent). -/
def envGet : EnvMap → List Char → Option (List Char)
  | [], _ => none
  | (k', v') :: rest, k => if k' = k then some v' else envGet rest k

/-- Split a line at its first `=`: the key is everything before, the value
everything after.  A line with no `=` carries no binding. -/
def splitEq : List Char → Option (List Char × List Char)
  | [] => none
  | c :: rest =>
    if c = '=' then some ([], rest)
    else
      match splitEq rest with
      | some (k, v) => some (c :: k, v)
      | none => none

/-- Prepend a character onto the first chunk of a split. -/
def consHead (c : Char) : List (List Char) → List (List Char)
  | [] => [[c]]
  | h :: t => (c :: h) :: t

/-- Split file content into lines at newline characters. -/
def splitNl : List Char → List (List Char)
  | [] => [[]]
  | c :: rest => if c = '\n' then [] :: splitNl rest else consHead c (splitNl rest)

/-- Join serialized lines with newline separators (`.join("\n")`). -/
def joinNl : List (List Char) → List Char
  | [] => []
  | [x] => x
  | x :: y :: t => x ++ '\n' :: joinNl (y :: t)

/-- Modelled `dotenv.parse` on plain unquoted `KEY=VALUE` lines: split into
lines, take each line's first `=` as the separator, later duplicate keys
overwrite earlier values in place. -/
def parseEnvChars (content : List Char) : EnvMap :=
  (splitNl content).foldl
    (fun m line =>
      match splitEq line with
      | some (k, v) => envSet m k v
      | none => m)
    []

/-- Serialization in `updateEnvFile`:
`Object.entries(envConfig).map(([k, v]) => `${k}=${v}`).join("\n")`. -/
def serializeEnvChars (m : EnvMap) : List Char :=
  joinNl (m.map fun e => e.1 ++ '=' :: e.2)

/-- The file system as an oracle from paths to file contents; `none` is a
missing (or unreadable) file. -/
abbrev FS := String → Option String

/-- The import-command oracle: maps the substituted command string to its
trimmed-later stdout, or `none` when `execSync` throws. -/
abbrev Imp := String → Option String

/-- `getEnvFileValue`: read the env file, parse it, and index the mapping;
a missing file reads as absent, not as an error. -/
def getEnvFileValue (fs : FS) (envFile key : String) : Option String :=
  match fs envFile with
  | none => none
  | some content => (envGet (parseEnvChars content.data) key.data).map String.mk

/-- `updateEnvFile`: read the existing content (missing file reads as
empty), parse, upsert the key, re-serialize in map order and write back. -/
def updateEnvFile (fs : FS) (filePath key value : String) : FS :=
  let content := (fs filePath).getD ""
  let m := envSet (parseEnvChars content.data) key.data value.data
  fun p => if p = filePath then some (String.mk (serializeEnvChars m)) else fs p

/-- Initially absent env file for the round-trip scenario. -/
def c5fs0 : FS := fun _ => none

/-- Initially empty (present but zero-length) env file variant. -/
def c5fsE : FS := fun p => if p = "svc.env" then some "" else none

/-- State after writing `FOO=bar` into the absent file. -/
def c5fsA : FS := updateEnvFile c5fs0 "svc.env" "FOO" "bar"

/-- State after additionally writing `BAZ=qux`. -/
def c5fsB : FS := updateEnvFile c5fsA "svc.env" "BAZ" "qux"

/-- State after writing `FOO=bar` into the empty file. -/
def c5fsA' : FS := updateEnvFile c5fsE "svc.env" "FOO" "bar"

/-- One configured project (`interface Project`): a persistence target,
file-backed via `envFile` or command-backed via the export/import command
templates, optionally with log prefixes to suppress. -/
structure Project where
  id : String
  envFile : Option String
  exportCommand : Option String
  importCommand : Option String
  ignoreLogs : Option (List String)
  deriving DecidableEq

/-- One variable to resolve (`interface EnvVariable`). -/
structure EnvVariable where
  name : String
  projects : List String
  details : String
  required : Option Bool
  defaultValue : Option String
  template : Option String
  info : Option (List String)
  deriving DecidableEq

/-- One setup step (`interface SetupStep`). -/
structure SetupStep where
  title : String
  instructions : String
  vars : List EnvVariable
  additionalInstructions : Option (List String)
  required : Option Bool
  description : Option String
  interactive : Option Bool
  deriving DecidableEq

/-- Modelled `path.join(dir, file)` as plain concatenation with a slash;
no claim depends on path normalisation. -/
def pathJoin (dir file : String) : String := dir ++ "/" ++ file

/-- Modelled `path.relative(process.cwd(), p)` as the identity; no claim
inspects the reported relative path. -/
def pathRelative (p : String) : String := p

/-- First-occurrence replacement over character lists, the behaviour of
JavaScript `String.prototype.replace` with a string pattern. -/
def replaceFirstChars (pat repl : List Char) : List Char → List Char
  | [] => []
  | c :: rest =>
    if pat.isPrefixOf (c :: rest) then repl ++ (c :: rest).drop pat.length
    else c :: replaceFirstChars pat repl rest

/-- `s.replace(pat, repl)` with a string pattern: first occurrence only. -/
def sreplaceFirst (s pat repl : String) : String :=
  String.mk (replaceFirstChars pat.data repl.data s.data)

/-- The literal substitution token `\x7b\x7bname\x7d\x7d` of the command
templates. -/
def nameTok : String := "\x7b\x7bname\x7d\x7d"

/-- The literal substitution token `\x7b\x7bvalue\x7d\x7d` of export
command templates. -/
def valueTok : String := "\x7b\x7bvalue\x7d\x7d"

/-- The body of one iteration of the `getExistingValue` loop for a single
listed project id: resolve the project record (an unknown id reads as
absent), then read via the env file if one is configured (a falsy value
reads as absent), else via the import command if one is configured (with
`execSync` errors and empty trimmed output reading as absent); a project
with neither strategy reads as absent.  A `some` result is exactly a value
on which the loop would `return`. -/
def readProjectValue (fs : FS) (imp : Imp) (ps : List Project)
    (pid name projectDir : String) : Option String :=
  match ps.find? (fun p => p.id == pid) with
  | none => none
  | some project =>
    if jsTruthy project.envFile then
      let value := getEnvFileValue fs (pathJoin projectDir (project.envFile.getD "")) name
      if jsTruthy value then value else none
    else if jsTruthy project.importCommand then
      match imp (sreplaceFirst (project.importCommand.getD "") nameTok name) with
      | some out => if out.trim ≠ "" then some out.trim else none
      | none => none
    else none

/-- The `for (const projectId of variable.projects)` loop of
`getExistingValue`: first truthy per-project read wins, absence everywhere
yields `undefined`. -/
def lookupLoop (fs : FS) (imp : Imp) (ps : List Project)
    (name projectDir : String) : List String → Option String
  | [] => none
  | pid :: rest =>
    match readProjectValue fs imp ps pid name projectDir with
    | some v => some v
    | none => lookupLoop fs imp ps name projectDir rest

/-- `getExistingValue`: iterate the variable's consumer project ids in
declared order and return the first present value. -/
def getExistingValue (fs : FS) (imp : Imp) (ps : List Project)
    (v : EnvVariable) (projectDir : String) : Option String :=
  lookupLoop fs imp ps v.name projectDir v.projects

/-- `updateProjectValue`: file-backed projects get the env-file upsert and
report the written path; otherwise a configured export command is executed
(returned in the effect list; a failing command is logged and ignored);
a project with neither strategy is a no-op.  The result is the new file
system, the list of executed export commands, and the reported path. -/
def updateProjectValue (fs : FS) (project : Project)
    (key value projectDir : String) : FS × List String × Option String :=
  if jsTruthy project.envFile then
    let envFilePath := pathJoin projectDir (project.envFile.getD "")
    (updateEnvFile fs envFilePath key value, [], some (pathRelative envFilePath))
  else if jsTruthy project.exportCommand then
    (fs,
      [sreplaceFirst (sreplaceFirst (project.exportCommand.getD "") nameTok key)
        valueTok value],
      none)
  else (fs, [], none)

/-- The persistence fan-out of `setupEnvironment`: iterate the variable's
consumer project ids in declared order, skip ids that match no project
record, write through `updateProjectValue`, and collect the reported
paths. -/
def fanOut (fs : FS) (ps : List Project) (ids : List String)
    (key value projectDir : String) : FS × List String × List String :=
  match ids with
  | [] => (fs, [], [])
  | pid :: rest =>
    match ps.find? (fun p => p.id == pid) with
    | none => fanOut fs ps rest key value projectDir
    | some project =>
      let w := updateProjectValue fs project key value projectDir
      let r := fanOut w.1 ps rest key value projectDir
      (r.1, w.2.1 ++ r.2.1,
        match w.2.2 with
        | some f => f :: r.2.2
        | none => r.2.2)

/-- The `defaultValue` computation of `setupEnvironment`:
`existingValue || (variable.template ? rendered : variable.defaultValue)`. -/
def computeDefault (fs : FS) (imp : Imp) (ps : List Project) (values : Values)
    (v : EnvVariable) (projectDir : String) : Option String :=
  jsOrOpt (getExistingValue fs imp ps v projectDir)
    (if jsTruthy v.template then
      some (renderTemplate values (v.template.getD ""))
    else v.defaultValue)

/-- The final value of a variable: in a non-interactive step
`defaultValue || ""`, otherwise the operator's prompt answer (modelled as
an oracle string). -/
def finalValue (step : SetupStep) (dflt : Option String) (answer : String) : String :=
  if step.interactive = some false then jsOr dflt "" else answer

/-- The user-visible outcome line for one variable: set with a list of
touched files, set with no files to report, or skipped. -/
inductive VarReport where
  | setFiles (files : List String)
  | setPlain
  | skipped
  deriving DecidableEq

/-- Processing of one variable inside `setupEnvironment`: compute the
default, determine the final value, and persist through the fan-out iff
the value is truthy or the variable is not explicitly optional; otherwise
report the variable as skipped with no effect. -/
def processVariable (fs : FS) (imp : Imp) (ps : List Project) (values : Values)
    (step : SetupStep) (v : EnvVariable) (projectDir answer : String) :
    FS × List String × VarReport :=
  let value := finalValue step (computeDefault fs imp ps values v projectDir) answer
  if value ≠ "" ∨ v.required ≠ some false then
    let r := fanOut fs ps v.projects v.name value projectDir
    (r.1, r.2.1, if r.2.2 ≠ [] then VarReport.setFiles r.2.2 else VarReport.setPlain)
  else (fs, [], VarReport.skipped)

/-- Processing of all variables of one step in declared order, threading
the file system and collecting export commands and per-variable reports;
the per-variable operator answer is an oracle keyed by variable name. -/
def processVars (fs : FS) (imp : Imp) (ps : List Project) (values : Values)
    (step : SetupStep) (projectDir : String) (answers : String → String) :
    FS × List String × List VarReport :=
  step.vars.foldl
    (fun acc v =>
      let r := processVariable acc.1 imp ps values step v projectDir (answers v.name)
      (r.1, acc.2.1 ++ r.2.1, acc.2.2 ++ [r.2.2]))
    (fs, [], [])

/-- The optional-step gate condition of `setupEnvironment`:
`step.required === false && step.interactive !== false` decides whether the
skip confirmation is presented. -/
def skipGate (step : SetupStep) : Bool :=
  (step.required == some false) && !(step.interactive == some false)

/-- One step of the walk: when the gate is open and the operator declines,
the step ends with no variables processed and no effect; otherwise every
variable is processed. -/
def runStep (fs : FS) (imp : Imp) (ps : List Project) (values : Values)
    (step : SetupStep) (projectDir : String) (confirmAnswer : Bool)
    (answers : String → String) : FS × List String × List VarReport :=
  if skipGate step && !confirmAnswer then (fs, [], [])
  else processVars fs imp ps values step projectDir answers

/-- A parsed JSON document, as `JSON.parse` yields it. -/
inductive Json where
  | null
  | bool (b : Bool)
  | num (n : Int)
  | str (s : String)
  | arr (elems : List Json)
  | obj (fields : List (String × Json))

/-- Property access `j.field` on a parsed document: a hit on an object with
that field, `undefined` otherwise. -/
def objGet (j : Json) (key : String) : Option Json :=
  match j with
  | Json.obj fields => (fields.find? (fun f => f.1 == key)).map (fun f => f.2)
  | _ => none

/-- `loadConfig`: a missing or unparsable file (`none`) and a document
whose `projects` field fails `Array.isArray` both raise, are caught, and
exit with code 1; otherwise the document is returned as the config. -/
def loadConfig (raw : Option Json) : Except Nat Json :=
  match raw with
  | none => Except.error 1
  | some j =>
    match objGet j "projects" with
    | some (Json.arr _) => Except.ok j
    | _ => Except.error 1

/-- Everywhere-absent file system for concrete instances. -/
def fsNone : FS := fun _ => none

/-- Always-failing import-command oracle for concrete instances. -/
def impNone : Imp := fun _ => none

/-- A concrete values context for concrete instances. -/
def vals0 : Values := ⟨"u", "s"⟩

/-- Projects for the first-match lookup scenario: `web` before `api`,
both file-backed. -/
def c3ps : List Project :=
  [⟨"web", some "web.env", none, none, none⟩,
   ⟨"api", some "api.env", none, none, none⟩]

/-- File system where `web`'s env file binds `KEY=1` and `api`'s binds
`KEY=2`. -/
def c3fs : FS := fun p =>
  if p = "pd/web.env" then some "KEY=1"
  else if p = "pd/api.env" then some "KEY=2"
  else none

/-- The variable looking `KEY` up in `web` then `api`. -/
def c3v : EnvVariable := ⟨"KEY", ["web", "api"], "", none, none, none, none⟩

/-- A single known project for the unknown-id scenario. -/
def c9ps : List Project := [⟨"web", some "web.env", none, none, none⟩]

/-- File system whose env file binds the looked-up key to the empty
string (`KEY=`). -/
def c10fs : FS := fun p => if p = "d/e.env" then some "KEY=" else none

/-- The file-backed project owning that env file. -/
def c10ps : List Project := [⟨"svc", some "e.env", none, none, none⟩]

/-- A project configured with an env file and both command templates. -/
def c8proj : Project := ⟨"p", some "e.env", some "EXPCMD", some "IMPCMD", none⟩

/-- An explicitly optional variable targeting one file-backed project. -/
def c2v : EnvVariable := ⟨"TOKEN", ["svc"], "", some false, none, none, none⟩

/-- The file-backed project list for the acceptance-policy scenario. -/
def c2ps : List Project := [⟨"svc", some "svc.env", none, none, none⟩]

/-- An interactive step (interactivity defaulted) holding that variable. -/
def c2step : SetupStep := ⟨"t", "i", [c2v], none, none, none, none⟩

/-- A variable with a present-but-empty `template` and a non-empty static
`defaultValue`: the JavaScript truthiness edge of the default chain. -/
def c6v : EnvVariable := ⟨"V", [], "", none, some "X", some "", none⟩

/-- A non-interactive step holding that variable. -/
def c6step : SetupStep := ⟨"t", "i", [c6v], none, none, none, some false⟩

/-- An optional non-interactive step. -/
def c7step : SetupStep := ⟨"t", "i", [], none, some false, none, some false⟩

/-- A parsed config document whose `projects` field is an empty array. -/
def c4cfg : Json :=
  Json.obj [("introMessage", Json.str "hi"), ("projects", Json.arr []),
    ("steps", Json.arr [])]

/-- The default chain as C6 words it, amended only in reading "has a
template" as "has a non-empty template" (the JavaScript truthiness test
`variable.template ?` that the source performs): the existing looked-up
value if one was found, else the rendered template, else the static
default if present, else the empty string. -/
def c6AmendedDefault (fs : FS) (imp : Imp) (ps : List Project) (values : Values)
    (v : EnvVariable) (d : String) : String :=
  match getExistingValue fs imp ps v d with
  | some s => s
  | none =>
    if jsTruthy v.template then renderTemplate values (v.template.getD "")
    else v.defaultValue.getD ""

/-- The default chain exactly as the claim states it: the existing
looked-up value if one was found, else the rendered template if the
variable has a `template` field at all, else the static default if
present, else the empty string. -/
def c6ClaimDefault (fs : FS) (imp : Imp) (ps : List Project) (values : Values)
    (v : EnvVariable) (d : String) : String :=
  match getExistingValue fs imp ps v d with
  | some s => s
  | none =>
    match v.template with
    | some t => renderTemplate values t
    | none => v.defaultValue.getD ""

/-- C5: file-backed adapter round-trip.  Writing `FOO=bar` into an absent
(or empty) env file and reading `FOO` back through the adapter yields
`"bar"`; a subsequent write of `BAZ=qux` preserves the `FOO=bar` binding
and appends the new key, so the file reads `FOO=bar`, newline, `BAZ=qux`;
and in general an upsert leaves every other key's binding unchanged and
appends a fresh key at the end of the mapping. -/
theorem c5_env_file_round_trip :
    getEnvFileValue c5fsA "svc.env" "FOO" = some "bar"
    ∧ c5fsB "svc.env" = some "FOO=bar\nBAZ=qux"
    ∧ getEnvFileValue c5fsB "svc.env" "FOO" = some "bar"
    ∧ getEnvFileValue c5fsB "svc.env" "BAZ" = some "qux"
    ∧ getEnvFileValue c5fsA' "svc.env" "FOO" = some "bar"
    ∧ (∀ (m : EnvMap) (k v k' : List Char), k' ≠ k →
        envGet (envSet m k v) k' = envGet m k')
    ∧ (∀ (m : EnvMap) (k v : List Char), (∀ e ∈ m, e.1 ≠ k) →
        envSet m k v = m ++ [(k, v)]) := by
  refine ⟨by decide, by decide, by decide, by decide, by decide, ?_, ?_⟩
  · intro m k v k' hne
    induction m with
    | nil => simp [envSet, envGet, Ne.symm hne]
    | cons e rest ih =>
      obtain ⟨ek, ev⟩ := e
      by_cases h : ek = k
      · subst h
        simp [envSet, envGet, Ne.symm hne]
      · simp [envSet, envGet, h]
        split <;> simp [ih]
  · intro m k v hfresh
    induction m with
    | nil => simp [envSet]
    | cons e rest ih =>
      obtain ⟨ek, ev⟩ := e
      have hek : ek ≠ k := hfresh (ek, ev) (by simp)
      simp [envSet, hek]
      exact ih fun e he => hfresh e (by simp [he])

/-- C5 witness: the general preservation part of the round-trip theorem at
a concrete mapping: updating `BAZ` leaves the binding of `FOO` unchanged. -/
theorem c5_env_file_round_trip_witness :
    envGet (envSet [("FOO".data, "bar".data)] "BAZ".data "qux".data) "FOO".data
      = envGet [("FOO".data, "bar".data)] "FOO".data := by
  exact c5_env_file_round_trip.2.2.2.2.2.1
    [("FOO".data, "bar".data)] "BAZ".data "qux".data "FOO".data (by decide)

theorem matchPlaceholder_cons_ne {c : Char} (h : ¬ c = '{') (l : List Char) :
    matchPlaceholder (c :: l) = none := by
  cases l with
  | nil => rfl
  | cons c2 t => simp [matchPlaceholder, h]

theorem length_dropWhile_le' (p : Char → Bool) :
    ∀ l : List Char, (l.dropWhile p).length ≤ l.length := by
  intro l
  induction l with
  | nil => simp
  | cons c t ih =>
    by_cases h : p c
    · simp only [List.dropWhile_cons, h, if_true, List.length_cons]
      omega
    · simp [List.dropWhile_cons, h]

theorem matchPlaceholder_some_length {l : List Char} {w : String} {r : List Char}
    (h : matchPlaceholder l = some (w, r)) : r.length + 2 ≤ l.length := by
  match l with
  | [] => simp [matchPlaceholder] at h
  | [c] => simp [matchPlaceholder] at h
  | c1 :: c2 :: rest =>
    simp only [matchPlaceholder] at h
    split at h
    · split at h
      · rename_i hcond
        obtain ⟨-, htake⟩ := hcond
        have hr : r = (rest.dropWhile isWordChar).drop 2 := by
          injection h with h'
          exact (congrArg Prod.snd h').symm
        have h2 : 2 ≤ (rest.dropWhile isWordChar).length := by
          have := congrArg List.length htake
          simp at this
          omega
        have hdw : (rest.dropWhile isWordChar).length ≤ rest.length :=
          length_dropWhile_le' isWordChar rest
        subst hr
        simp only [List.length_drop, List.length_cons]
        omega
      · exact absurd h (by simp)
    · exact absurd h (by simp)

theorem replaceCharsFuel_congr (f : String → String) :
    ∀ (n fuel fuel' : Nat) (l : List Char), l.length ≤ n → l.length ≤ fuel →
      l.length ≤ fuel' → replaceCharsFuel f fuel l = replaceCharsFuel f fuel' l := by
  intro n
  induction n with
  | zero =>
    intro fuel fuel' l hn _ _
    have hl : l = [] := List.length_eq_zero.mp (Nat.le_zero.mp hn)
    subst hl
    cases fuel <;> cases fuel' <;> rfl
  | succ n ih =>
    intro fuel fuel' l hn hf hf'
    cases l with
    | nil => cases fuel <;> cases fuel' <;> rfl
    | cons c rest =>
      cases fuel with
      | zero => simp at hf
      | succ a =>
        cases fuel' with
        | zero => simp at hf'
        | succ b =>
          simp only [List.length_cons] at hn hf hf'
          simp only [replaceCharsFuel]
          cases h : matchPlaceholder (c :: rest) with
          | none =>
            exact congrArg (c :: ·) (ih a b rest (by omega) (by omega) (by omega))
          | some wr =>
            obtain ⟨w, r⟩ := wr
            have hlen := matchPlaceholder_some_length h
            simp only [List.length_cons] at hlen
            exact congrArg ((f w).data ++ ·) (ih a b r (by omega) (by omega) (by omega))

theorem replaceChars_cons_none {f : String → String} {c : Char} {rest : List Char}
    (h : matchPlaceholder (c :: rest) = none) :
    replaceChars f (c :: rest) = c :: replaceChars f rest := by
  simp only [replaceChars, List.length_cons, replaceCharsFuel, h]

theorem replaceChars_cons_some {f : String → String} {c : Char} {rest : List Char}
    {w : String} {r : List Char} (h : matchPlaceholder (c :: rest) = some (w, r)) :
    replaceChars f (c :: rest) = (f w).data ++ replaceChars f r := by
  have hlen := matchPlaceholder_some_length h
  simp only [List.length_cons] at hlen
  simp only [replaceChars, List.length_cons, replaceCharsFuel, h]
  exact congrArg ((f w).data ++ ·)
    (replaceCharsFuel_congr f rest.length rest.length r.length r (by omega) (by omega) (by omega))

theorem takeWhile_dropWhile_append {p : Char → Bool} :
    ∀ (k : List Char), (∀ c ∈ k, p c = true) → ∀ {c : Char} (t : List Char), p c = false →
      (k ++ c :: t).takeWhile p = k ∧ (k ++ c :: t).dropWhile p = c :: t := by
  intro k
  induction k with
  | nil =>
    intro _ c t hc
    simp [List.takeWhile, List.dropWhile, hc]
  | cons x xs ih =>
    intro hall c t hc
    have hx : p x = true := hall x (by simp)
    have := ih (fun c hc' => hall c (by simp [hc'])) t hc
    simp [List.takeWhile, List.dropWhile, hx, this.1, this.2]

theorem matchPlaceholder_braces {k : List Char} (hk : k ≠ [])
    (hw : ∀ c ∈ k, isWordChar c = true) (b : List Char) :
    matchPlaceholder ('{' :: '{' :: (k ++ '}' :: '}' :: b)) = some (String.mk k, b) := by
  have hbr : isWordChar '}' = false := by decide
  obtain ⟨ht, hd⟩ := takeWhile_dropWhile_append k hw ('}' :: b) hbr
  simp [matchPlaceholder, ht, hd, hk]

theorem replaceChars_copy {f : String → String} {a : List Char}
    (ha : ∀ c ∈ a, ¬ c = '{') (l : List Char) :
    replaceChars f (a ++ l) = a ++ replaceChars f l := by
  induction a with
  | nil => simp
  | cons c a' ih =>
    have h := matchPlaceholder_cons_ne (ha c (by simp)) (a' ++ l)
    rw [List.cons_append, replaceChars_cons_none h,
      ih (fun c hc => ha c (by simp [hc]))]
    rfl

theorem replaceChars_placeholder {f : String → String} {a k : List Char} (b : List Char)
    (ha : ∀ c ∈ a, ¬ c = '{') (hk : k ≠ []) (hw : ∀ c ∈ k, isWordChar c = true) :
    replaceChars f (a ++ '{' :: '{' :: (k ++ '}' :: '}' :: b))
      = a ++ (f (String.mk k)).data ++ replaceChars f b := by
  rw [replaceChars_copy ha, replaceChars_cons_some (matchPlaceholder_braces hk hw b),
    List.append_assoc]

/-- C1 counterexample: the claim as stated fails on the `template`
default-value rendering path.  Rendering the template consisting of the
single placeholder occurrence for the unknown key `foo` substitutes the
empty string, not the visibly-marked token `[foo not set]` that the same
input produces on the info-string path. -/
theorem c1_counterexample :
    renderTemplate ⟨"u", "s"⟩ "\x7b\x7bfoo\x7d\x7d" = ""
    ∧ processInfo ⟨"u", "s"⟩ "\x7b\x7bfoo\x7d\x7d" = "[foo not set]"
    ∧ ("" : String) ≠ "[foo not set]" :=
  ⟨by decide, by decide, by decide⟩

/-- C1 (amended): for every placeholder occurrence whose key is absent
from the `Values` context, the info-string rendering path substitutes the
visibly-marked token `[key not set]` in place of the occurrence, never
throwing and never emitting the empty string or `undefined`; the
`template` default-value rendering path instead substitutes the empty
string for such an occurrence.  The occurrence is exhibited as a
brace-free prefix followed by the braced word key, and rendering continues
on the remainder. -/
theorem c1_placeholder_miss_policy (values : Values) (a k b : List Char)
    (ha : ∀ c ∈ a, ¬ c = '{') (hk : k ≠ []) (hw : ∀ c ∈ k, isWordChar c = true)
    (h1 : String.mk k ≠ "convexUrl") (h2 : String.mk k ≠ "convexSiteUrl") :
    processInfo values (String.mk (a ++ '{' :: '{' :: (k ++ '}' :: '}' :: b)))
      = String.mk (a ++ ("[" ++ String.mk k ++ " not set]").data
          ++ replaceChars (infoSub values) b)
    ∧ renderTemplate values (String.mk (a ++ '{' :: '{' :: (k ++ '}' :: '}' :: b)))
      = String.mk (a ++ replaceChars (tplSub values) b) := by
  have hmiss : valuesLookup values (String.mk k) = none := by
    simp [valuesLookup, h1, h2]
  constructor
  · simp only [processInfo, replacePlaceholders]
    rw [replaceChars_placeholder b ha hk hw]
    simp [infoSub, hmiss, jsOr]
  · simp only [renderTemplate, replacePlaceholders]
    rw [replaceChars_placeholder b ha hk hw]
    simp [tplSub, hmiss, jsOr]

/-- C1 witness: the amended miss policy at the concrete info and template
string built from the prefix `x` and the unknown key `foo`. -/
theorem c1_placeholder_miss_policy_witness :
    processInfo ⟨"u", "s"⟩ (String.mk (['x'] ++ '{' :: '{' :: ("foo".data ++ '}' :: '}' :: [])))
      = String.mk (['x'] ++ ("[" ++ String.mk "foo".data ++ " not set]").data
          ++ replaceChars (infoSub ⟨"u", "s"⟩) [])
    ∧ renderTemplate ⟨"u", "s"⟩ (String.mk (['x'] ++ '{' :: '{' :: ("foo".data ++ '}' :: '}' :: [])))
      = String.mk (['x'] ++ replaceChars (tplSub ⟨"u", "s"⟩) []) :=
  c1_placeholder_miss_policy ⟨"u", "s"⟩ ['x'] "foo".data []
    (by decide) (by decide) (by decide) (by decide) (by decide)

theorem lookupLoop_append_none (fs : FS) (imp : Imp) (ps : List Project)
    (nm d : String) :
    ∀ (pre l : List String),
      (∀ q ∈ pre, readProjectValue fs imp ps q nm d = none) →
      lookupLoop fs imp ps nm d (pre ++ l) = lookupLoop fs imp ps nm d l := by
  intro pre
  induction pre with
  | nil => intro l _; rfl
  | cons q pre' ih =>
    intro l h
    have hq := h q (by simp)
    simp only [List.cons_append, lookupLoop, hq]
    exact ih l fun q' hq' => h q' (by simp [hq'])

theorem lookupLoop_all_none (fs : FS) (imp : Imp) (ps : List Project)
    (nm d : String) :
    ∀ ids : List String,
      (∀ q ∈ ids, readProjectValue fs imp ps q nm d = none) →
      lookupLoop fs imp ps nm d ids = none := by
  intro ids
  induction ids with
  | nil => intro _; rfl
  | cons q t ih =>
    intro hall
    simp only [lookupLoop, hall q (by simp)]
    exact ih fun q' h' => hall q' (by simp [h'])

/-- C3: the existing-value lookup iterates the variable's consumer project
ids in declared order and returns the first present (truthy) per-project
read, short-circuiting: whenever the ids split as a prefix on which every
read is absent followed by an id whose read yields a value, that value is
the result, whatever later ids would yield; and absence from every listed
project yields `none`, not an error. -/
theorem c3_first_match_lookup (fs : FS) (imp : Imp) (ps : List Project)
    (v : EnvVariable) (d : String) :
    (∀ (pre : List String) (pid : String) (rest : List String) (val : String),
      v.projects = pre ++ pid :: rest →
      (∀ q ∈ pre, readProjectValue fs imp ps q v.name d = none) →
      readProjectValue fs imp ps pid v.name d = some val →
      getExistingValue fs imp ps v d = some val)
    ∧ ((∀ q ∈ v.projects, readProjectValue fs imp ps q v.name d = none) →
      getExistingValue fs imp ps v d = none) := by
  constructor
  · intro pre pid rest val hsplit hpre hpid
    simp only [getExistingValue, hsplit]
    rw [lookupLoop_append_none fs imp ps v.name d pre (pid :: rest) hpre]
    simp [lookupLoop, hpid]
  · intro h
    exact lookupLoop_all_none fs imp ps v.name d v.projects h

/-- C3 witness: with the variable listing `web` before `api`, `web`'s env
file binding `KEY=1` and `api`'s binding `KEY=2`, the lookup resolves to
`1`. -/
theorem c3_first_match_lookup_witness :
    getExistingValue c3fs impNone c3ps c3v "pd" = some "1" :=
  (c3_first_match_lookup c3fs impNone c3ps c3v "pd").1 [] "web" ["api"] "1"
    rfl (by simp) (by decide)

/-- C9: a project id listed by a variable that matches no project record
in the config is silently skipped by both the existing-value lookup and
the persistence fan-out: no read or write is attempted for it, no error is
raised, and processing continues with the remaining listed ids. -/
theorem c9_unknown_project_id_skipped (fs : FS) (imp : Imp) (ps : List Project)
    (pid : String) (h : ps.find? (fun p => p.id == pid) = none) :
    (∀ (nm dt d : String) (ids : List String) (rq : Option Bool)
      (dv tp : Option String) (inf : Option (List String)),
      getExistingValue fs imp ps ⟨nm, pid :: ids, dt, rq, dv, tp, inf⟩ d
        = getExistingValue fs imp ps ⟨nm, ids, dt, rq, dv, tp, inf⟩ d)
    ∧ (∀ (ids : List String) (key value d : String),
      fanOut fs ps (pid :: ids) key value d = fanOut fs ps ids key value d) := by
  constructor
  · intro nm dt d ids rq dv tp inf
    simp only [getExistingValue, lookupLoop, readProjectValue, h]
  · intro ids key value d
    simp only [fanOut, h]

/-- C9 witness: prepending the unknown id `ghost` to the lookup list
leaves the lookup result unchanged. -/
theorem c9_unknown_project_id_skipped_witness :
    getExistingValue fsNone impNone c9ps ⟨"KEY", "ghost" :: ["web"], "", none, none, none, none⟩ "pd"
      = getExistingValue fsNone impNone c9ps ⟨"KEY", ["web"], "", none, none, none, none⟩ "pd" :=
  (c9_unknown_project_id_skipped fsNone impNone c9ps "ghost" (by decide)).1
    "KEY" "" "pd" ["web"] none none none none

/-- C10: a file-backed project whose env file binds the looked-up key to
the empty string reads as absent: the per-project read yields `none`, the
lookup continues with later-listed projects unchanged, and a variable
listing only that project resolves to absent (so default computation takes
over). -/
theorem c10_empty_binding_reads_absent (fs : FS) (imp : Imp) (ps : List Project)
    (pid d nm : String) (project : Project)
    (hfind : ps.find? (fun p => p.id == pid) = some project)
    (henv : jsTruthy project.envFile = true)
    (hval : getEnvFileValue fs (pathJoin d (project.envFile.getD "")) nm = some "") :
    readProjectValue fs imp ps pid nm d = none
    ∧ (∀ (ids : List String) (dt : String) (rq : Option Bool)
        (dv tp : Option String) (inf : Option (List String)),
      getExistingValue fs imp ps ⟨nm, pid :: ids, dt, rq, dv, tp, inf⟩ d
        = getExistingValue fs imp ps ⟨nm, ids, dt, rq, dv, tp, inf⟩ d)
    ∧ (∀ (dt : String) (rq : Option Bool) (dv tp : Option String)
        (inf : Option (List String)),
      getExistingValue fs imp ps ⟨nm, [pid], dt, rq, dv, tp, inf⟩ d = none) := by
  have hread : readProjectValue fs imp ps pid nm d = none := by
    simp only [readProjectValue, hfind, henv]
    simp [hval, jsTruthy]
  refine ⟨hread, ?_, ?_⟩
  · intro ids dt rq dv tp inf
    simp only [getExistingValue, lookupLoop, hread]
  · intro dt rq dv tp inf
    simp only [getExistingValue, lookupLoop, hread]

/-- C10 witness: with the env file content `KEY=`, the lookup of `KEY`
resolves to absent rather than to the empty string. -/
theorem c10_empty_binding_reads_absent_witness :
    getExistingValue c10fs impNone c10ps ⟨"KEY", ["svc"], "", none, none, none, none⟩ "d"
      = none :=
  (c10_empty_binding_reads_absent c10fs impNone c10ps "svc" "d" "KEY"
    ⟨"svc", some "e.env", none, none, none⟩ (by decide) (by decide) (by decide)).2.2
    "" none none none none

/-- C8: for a project configured with an env-file path and both command
templates, the file-backed strategy is selected exclusively on both sides:
the per-project read equals the env-file lookup and is independent of the
import-command oracle (the import command is never executed), and the
write updates the env file, executes no export command, and reports the
written path. -/
theorem c8_file_strategy_exclusive (project : Project)
    (henv : jsTruthy project.envFile = true)
    (_hexp : jsTruthy project.exportCommand = true)
    (_himp : jsTruthy project.importCommand = true) :
    (∀ (fs : FS) (imp imp' : Imp) (ps : List Project) (pid nm d : String),
      ps.find? (fun p => p.id == pid) = some project →
      readProjectValue fs imp ps pid nm d = readProjectValue fs imp' ps pid nm d
      ∧ readProjectValue fs imp ps pid nm d =
        (let value := getEnvFileValue fs (pathJoin d (project.envFile.getD "")) nm
         if jsTruthy value then value else none))
    ∧ (∀ (fs : FS) (key value d : String),
      updateProjectValue fs project key value d =
        (updateEnvFile fs (pathJoin d (project.envFile.getD "")) key value, [],
          some (pathRelative (pathJoin d (project.envFile.getD ""))))) := by
  constructor
  · intro fs imp imp' ps pid nm d hfind
    constructor <;> simp [readProjectValue, hfind, henv]
  · intro fs key value d
    simp [updateProjectValue, henv]

/-- C8 witness: on a project carrying an env file and both command
templates, the read result does not change when the import oracle does. -/
theorem c8_file_strategy_exclusive_witness :
    readProjectValue fsNone (fun _ => some "A") [c8proj] "p" "K" "d"
      = readProjectValue fsNone (fun _ => some "B") [c8proj] "p" "K" "d" :=
  ((c8_file_strategy_exclusive c8proj (by decide) (by decide) (by decide)).1
    fsNone (fun _ => some "A") (fun _ => some "B") [c8proj] "p" "K" "d" (by decide)).1

theorem jsTruthy_none_eq : jsTruthy none = false := rfl

theorem jsTruthy_some_eq (s : String) : jsTruthy (some s) = (s != "") := rfl

theorem jsOr_some_empty (s : String) : jsOr (some s) "" = s := by
  by_cases h : s = "" <;> simp [jsOr, h]

theorem jsOr_empty_getD (o : Option String) : jsOr o "" = o.getD "" := by
  cases o with
  | none => rfl
  | some s => by_cases h : s = "" <;> simp [jsOr, h]

theorem readProjectValue_ne_empty {fs : FS} {imp : Imp} {ps : List Project}
    {pid nm d : String} {s : String}
    (h : readProjectValue fs imp ps pid nm d = some s) : s ≠ "" := by
  simp only [readProjectValue] at h
  split at h
  · simp at h
  · split at h
    · split at h
      · rename_i htruthy
        rw [h] at htruthy
        simpa [jsTruthy] using htruthy
      · simp at h
    · split at h
      · split at h
        · split at h
          · rename_i hne
            rw [← Option.some.inj h]
            exact hne
          · simp at h
        · simp at h
      · simp at h

theorem lookupLoop_ne_empty (fs : FS) (imp : Imp) (ps : List Project) (nm d : String) :
    ∀ (ids : List String) {s : String},
      lookupLoop fs imp ps nm d ids = some s → s ≠ "" := by
  intro ids
  induction ids with
  | nil => intro s h; simp [lookupLoop] at h
  | cons q t ih =>
    intro s h
    simp only [lookupLoop] at h
    split at h
    · rename_i val hq
      rw [← Option.some.inj h]
      exact readProjectValue_ne_empty hq
    · exact ih h

theorem getExistingValue_ne_empty {fs : FS} {imp : Imp} {ps : List Project}
    {v : EnvVariable} {d s : String}
    (h : getExistingValue fs imp ps v d = some s) : s ≠ "" := by
  simp only [getExistingValue] at h
  exact lookupLoop_ne_empty fs imp ps v.name d v.projects h

/-- C2: the persistence fan-out runs if and only if the final value is
non-empty or the variable is not explicitly optional: the variable is
reported skipped exactly when its final value is empty and it carries
`required: false`, in which case nothing is written and no command runs;
in every other case — including a required variable with an empty final
value — the fan-out over the variable's consumer projects produces the
resulting state and a distinct "set" report. -/
theorem c2_acceptance_policy (fs : FS) (imp : Imp) (ps : List Project)
    (values : Values) (step : SetupStep) (v : EnvVariable) (d answer : String) :
    ((processVariable fs imp ps values step v d answer).2.2 = VarReport.skipped
      ↔ (finalValue step (computeDefault fs imp ps values v d) answer = ""
        ∧ v.required = some false))
    ∧ (finalValue step (computeDefault fs imp ps values v d) answer = ""
        ∧ v.required = some false →
      processVariable fs imp ps values step v d answer = (fs, [], VarReport.skipped))
    ∧ (finalValue step (computeDefault fs imp ps values v d) answer ≠ ""
        ∨ v.required ≠ some false →
      processVariable fs imp ps values step v d answer =
        (let r := fanOut fs ps v.projects v.name
            (finalValue step (computeDefault fs imp ps values v d) answer) d
         (r.1, r.2.1,
           if r.2.2 ≠ [] then VarReport.setFiles r.2.2 else VarReport.setPlain))) := by
  by_cases h : finalValue step (computeDefault fs imp ps values v d) answer ≠ ""
      ∨ v.required ≠ some false
  · have hrep : (processVariable fs imp ps values step v d answer).2.2
        ≠ VarReport.skipped := by
      simp only [processVariable, if_pos h]
      split <;> simp
    refine ⟨⟨fun hr => absurd hr hrep, fun hc => ?_⟩, fun hc => ?_, fun _ => ?_⟩
    · rcases h with h | h
      · exact absurd hc.1 h
      · exact absurd hc.2 h
    · rcases h with h | h
      · exact absurd hc.1 h
      · exact absurd hc.2 h
    · simp only [processVariable, if_pos h]
  · push_neg at h
    obtain ⟨hval, hreq⟩ := h
    have hni : ¬ (finalValue step (computeDefault fs imp ps values v d) answer ≠ ""
        ∨ v.required ≠ some false) := by
      push_neg
      exact ⟨hval, hreq⟩
    have hskip : processVariable fs imp ps values step v d answer
        = (fs, [], VarReport.skipped) := by
      simp only [processVariable, if_neg hni]
    refine ⟨?_, fun _ => hskip, fun hc => absurd hc hni⟩
    exact ⟨fun _ => ⟨hval, hreq⟩, fun _ => by rw [hskip]⟩

/-- C2 witness: an explicitly optional variable whose final value is the
empty operator answer is reported skipped. -/
theorem c2_acceptance_policy_witness :
    (finalValue c2step (computeDefault fsNone impNone c2ps vals0 c2v "pd") "" = ""
      ∧ c2v.required = some false)
    ∧ (processVariable fsNone impNone c2ps vals0 c2step c2v "pd" "").2.2
      = VarReport.skipped :=
  ⟨⟨by decide, rfl⟩,
    (c2_acceptance_policy fsNone impNone c2ps vals0 c2step c2v "pd" "").1.mpr
      ⟨by decide, rfl⟩⟩

/-- C6 counterexample: the claim as stated fails on a variable whose
`template` field is present but empty while a non-empty static
`defaultValue` is configured: in a non-interactive step the code resolves
the variable to the static default `X`, whereas the claim's chain
("rendered template if the variable has one") prescribes the rendered
empty template, the empty string. -/
theorem c6_counterexample :
    finalValue c6step (computeDefault fsNone impNone [] vals0 c6v "pd") "zz" = "X"
    ∧ c6ClaimDefault fsNone impNone [] vals0 c6v "pd" = ""
    ∧ ("X" : String) ≠ "" :=
  ⟨by decide, by decide, by decide⟩

/-- C6 (amended): inside a step with `interactive: false` no prompt is
consulted — the outcome is independent of the operator-answer oracle —
and the final value is the computed default verbatim: the existing
looked-up value if one was found, else the rendered template if the
variable has a non-empty template (JavaScript truthiness of the field),
else the static `defaultValue` if present, else the empty string. -/
theorem c6_noninteractive_default (fs : FS) (imp : Imp) (ps : List Project)
    (values : Values) (step : SetupStep) (v : EnvVariable) (d : String)
    (h : step.interactive = some false) :
    (∀ answer, finalValue step (computeDefault fs imp ps values v d) answer
      = c6AmendedDefault fs imp ps values v d)
    ∧ (∀ a1 a2, processVariable fs imp ps values step v d a1
      = processVariable fs imp ps values step v d a2) := by
  have hval : ∀ answer, finalValue step (computeDefault fs imp ps values v d) answer
      = c6AmendedDefault fs imp ps values v d := by
    intro answer
    have h1 : finalValue step (computeDefault fs imp ps values v d) answer
        = jsOr (computeDefault fs imp ps values v d) "" := by
      simp [finalValue, h]
    rw [h1]
    simp only [computeDefault, c6AmendedDefault]
    cases hex : getExistingValue fs imp ps v d with
    | some s =>
      have hs : s ≠ "" := getExistingValue_ne_empty hex
      have hbs : (s != "") = true := by simpa using hs
      simp [jsOrOpt, jsTruthy_some_eq, hbs, jsOr_some_empty]
    | none =>
      by_cases ht : jsTruthy v.template
      · simp [jsOrOpt, jsTruthy_none_eq, ht, jsOr_some_empty]
      · simp [jsOrOpt, jsTruthy_none_eq, ht, jsOr_empty_getD]
  exact ⟨hval, fun a1 a2 => by simp only [processVariable, hval a1, hval a2]⟩

/-- C6 witness: the amended default chain at the concrete non-interactive
step, for an arbitrary fixed operator answer. -/
theorem c6_noninteractive_default_witness :
    finalValue c6step (computeDefault fsNone impNone [] vals0 c6v "pd") "a"
      = c6AmendedDefault fsNone impNone [] vals0 c6v "pd" :=
  (c6_noninteractive_default fsNone impNone [] vals0 c6step c6v "pd" rfl).1 "a"

/-- C7: the optional-step skip confirmation is presented iff the step has
`required: false` and is interactive; a step with `required: false` and
`interactive: false` never consults the confirmation oracle — its outcome
is identical for every would-be answer and equals processing all its
variables — and when the gate is open, answering no ends the step with no
variables processed and no effect. -/
theorem c7_optional_step_gate (fs : FS) (imp : Imp) (ps : List Project)
    (values : Values) (step : SetupStep) (d : String) (answers : String → String) :
    (skipGate step = true
      ↔ (step.required = some false ∧ step.interactive ≠ some false))
    ∧ (step.required = some false → step.interactive = some false →
      ∀ ca ca', runStep fs imp ps values step d ca answers
          = runStep fs imp ps values step d ca' answers
        ∧ runStep fs imp ps values step d ca answers
          = processVars fs imp ps values step d answers)
    ∧ (skipGate step = true →
      runStep fs imp ps values step d false answers = (fs, [], [])) := by
  refine ⟨?_, ?_, ?_⟩
  · simp [skipGate]
  · intro hr hi ca ca'
    have hg : skipGate step = false := by simp [skipGate, hi]
    constructor <;> simp [runStep, hg]
  · intro hg
    simp [runStep, hg]

/-- C7 witness: on an optional non-interactive step the step outcome does
not depend on the would-be confirmation answer. -/
theorem c7_optional_step_gate_witness :
    runStep fsNone impNone [] vals0 c7step "pd" true (fun _ => "")
      = runStep fsNone impNone [] vals0 c7step "pd" false (fun _ => "") :=
  ((c7_optional_step_gate fsNone impNone [] vals0 c7step "pd" (fun _ => "")).2.1
    rfl rfl true false).1

/-- C4 counterexample: a config whose `projects` field is an empty array
loads successfully, so the loaded config does not satisfy the claimed
invariant of a non-empty project list. -/
theorem c4_counterexample :
    loadConfig (some c4cfg) = Except.ok c4cfg
    ∧ objGet c4cfg "projects" = some (Json.arr []) :=
  ⟨rfl, rfl⟩

/-- C4 (amended): loading aborts with exit code 1 when the file is
unreadable or unparsable, when the `projects` field is absent, and when it
is present but not an array; and every successfully loaded config is the
parsed document itself with a `projects` field that is a (possibly empty)
array. -/
theorem c4_load_invariant :
    (loadConfig none = Except.error 1)
    ∧ (∀ j : Json, objGet j "projects" = none → loadConfig (some j) = Except.error 1)
    ∧ (∀ (j a : Json), objGet j "projects" = some a → (∀ l, a ≠ Json.arr l) →
      loadConfig (some j) = Except.error 1)
    ∧ (∀ (j cfg : Json), loadConfig (some j) = Except.ok cfg →
      cfg = j ∧ ∃ l, objGet j "projects" = some (Json.arr l)) := by
  refine ⟨rfl, ?_, ?_, ?_⟩
  · intro j h
    simp [loadConfig, h]
  · intro j a h hne
    simp only [loadConfig, h]
    cases a with
    | arr l => exact absurd rfl (hne l)
    | null => rfl
    | bool b => rfl
    | num n => rfl
    | str s => rfl
    | obj fields => rfl
  · intro j cfg h
    simp only [loadConfig] at h
    cases hp : objGet j "projects" with
    | none => rw [hp] at h; exact absurd h (by simp)
    | some a =>
      rw [hp] at h
      cases a with
      | arr l =>
        obtain rfl : j = cfg := by injection h
        exact ⟨rfl, l, rfl⟩
      | null => exact absurd h (by simp)
      | bool b => exact absurd h (by simp)
      | num n => exact absurd h (by simp)
      | str s => exact absurd h (by simp)
      | obj fields => exact absurd h (by simp)

/-- C4 witness: a document with no `projects` field at all is a fatal load
error with exit code 1. -/
theorem c4_load_invariant_witness :
    loadConfig (some (Json.obj [])) = Except.error 1 :=
  c4_load_invariant.2.1 (Json.obj []) rfl

end CreateV1
